import Mathlib

/-!
Verification of the ExpenseTracker repository's classification and
spreadsheet-synchronization logic.

The Python sources embedded here:
* `src/tracker/income_expense_tracker.py` — `TrackerSection` (keyword filter
  `__trx_filter`, `clear_contents`, `write_data`) and `IncomeExpenseTracker`
  (`update_tracker`, `__clear_tracker_contents`,
  `__write_transaction_data_to_tracker`).
* `src/transaction/transactions.py` — `Transactions.__separate_income_from_expenses`.

Strings are modelled as `List Char`; Python's `str.upper` as a character-wise
`Char.toUpper`; Python's substring operator `in` as `containsSub`.  Dates and
amounts are modelled as `Int` (no arithmetic is ever performed on them by the
code under study, only comparisons and copies).  Worksheets are modelled as
functions from (row, column) to an optional cell value, and the raising of a
Python exception as returning an `Except.error` together with the worksheet
state at the moment of the raise.
-/

namespace ExpenseTracker

/-- Model of Python `text.upper()`: uppercase every character. -/
def upperStr (s : List Char) : List Char := s.map Char.toUpper

/-- Model of the Python substring test `needle in hay` on strings. -/
def containsSub (needle : List Char) : List Char → Bool
  | [] => needle.isEmpty
  | c :: rest => needle.isPrefixOf (c :: rest) || containsSub needle rest

/-- `needle` occurs as a contiguous substring of `hay`. -/
def SubstrOf (needle hay : List Char) : Prop := ∃ p t, hay = p ++ needle ++ t

theorem isPrefixOf_iff_exists (n h : List Char) :
    n.isPrefixOf h = true ↔ ∃ t, h = n ++ t := by
  induction n generalizing h with
  | nil => simp [List.isPrefixOf]
  | cons a as ih =>
    cases h with
    | nil => simp [List.isPrefixOf]
    | cons b bs =>
      simp only [List.isPrefixOf, Bool.and_eq_true, beq_iff_eq, ih bs,
        List.cons_append, List.cons.injEq]
      constructor
      · rintro ⟨rfl, t, rfl⟩
        exact ⟨t, rfl, rfl⟩
      · rintro ⟨t, rfl, rfl⟩
        exact ⟨rfl, t, rfl⟩

theorem containsSub_iff (n h : List Char) :
    containsSub n h = true ↔ SubstrOf n h := by
  induction h with
  | nil =>
    simp only [containsSub, List.isEmpty_iff, SubstrOf]
    constructor
    · rintro rfl
      exact ⟨[], [], rfl⟩
    · rintro ⟨p, t, hpt⟩
      rcases List.append_eq_nil.mp (List.append_eq_nil.mp hpt.symm).1 with ⟨-, h2⟩
      exact h2
  | cons c t ih =>
    simp only [containsSub, Bool.or_eq_true, isPrefixOf_iff_exists, ih, SubstrOf]
    constructor
    · rintro (⟨s, hs⟩ | ⟨p, s, hs⟩)
      · exact ⟨[], s, by simpa using hs⟩
      · exact ⟨c :: p, s, by simp [hs]⟩
    · rintro ⟨p, s, hs⟩
      cases p with
      | nil => exact Or.inl ⟨s, by simpa using hs⟩
      | cons c2 p2 =>
        simp only [List.cons_append, List.cons.injEq] at hs
        exact Or.inr ⟨p2, s, hs.2⟩

theorem containsSub_false_iff (n h : List Char) :
    containsSub n h = false ↔ ¬ SubstrOf n h := by
  rw [← containsSub_iff]
  cases containsSub n h <;> simp

/-- Embedding of `TrackerSection.__trx_filter`
(`src/tracker/income_expense_tracker.py`, lines 150-175): the membership
predicate applied to each transaction description.  The four branches mirror
the source's nesting on `is_inverse_section` and `len(self.keyword_exceptions) == 0`. -/
def trxFilter (keywords keyword_exceptions : List (List Char))
    (is_inverse_section : Bool) (text : List Char) : Bool :=
  if is_inverse_section then
    if keyword_exceptions.length = 0 then
      keywords.all (fun key_word => !(containsSub key_word (upperStr text)))
    else
      keywords.all (fun key_word => !(containsSub key_word (upperStr text))) ||
        keyword_exceptions.any (fun kw_ex => containsSub kw_ex (upperStr text))
  else
    if keyword_exceptions.length = 0 then
      keywords.any (fun key_word => containsSub key_word (upperStr text))
    else
      keywords.any (fun key_word => containsSub key_word (upperStr text)) &&
        keyword_exceptions.all (fun kw_ex => !(containsSub kw_ex (upperStr text)))

/-- C1: for every non-inverse keyword rule and every description: if the rule
has no exceptions, the description belongs to the section iff some keyword is
a substring of the uppercased description; if exceptions are configured, it
belongs iff some keyword matches and no exception keyword matches. -/
theorem noninverse_rule_membership
    (keywords keyword_exceptions : List (List Char)) (d : List Char) :
    (keyword_exceptions = [] →
      (trxFilter keywords keyword_exceptions false d = true ↔
        ∃ kw ∈ keywords, SubstrOf kw (upperStr d))) ∧
    (keyword_exceptions ≠ [] →
      (trxFilter keywords keyword_exceptions false d = true ↔
        (∃ kw ∈ keywords, SubstrOf kw (upperStr d)) ∧
          ∀ ex ∈ keyword_exceptions, ¬ SubstrOf ex (upperStr d))) := by
  constructor
  · rintro rfl
    simp [trxFilter, List.any_eq_true, containsSub_iff]
  · intro hne
    have hlen : ¬ keyword_exceptions.length = 0 := by
      simpa [List.length_eq_zero] using hne
    simp [trxFilter, hlen, List.any_eq_true, List.all_eq_true, containsSub_iff,
      containsSub_false_iff]

/-- Closed-instance witness for `noninverse_rule_membership`. -/
theorem noninverse_rule_membership_witness :
    trxFilter [("KROGER".toList)] [] false ("KROGER 042".toList) = true :=
  ((noninverse_rule_membership [("KROGER".toList)] [] ("KROGER 042".toList)).1
      rfl).mpr
    ⟨("KROGER".toList), by simp, ⟨[], (" 042".toList), by decide⟩⟩

/-- C2: for every inverse keyword rule with a non-empty exception list and
every description: the description belongs to the section iff no keyword
matches it or some exception keyword matches it; in particular, a description
containing an exception keyword always belongs, regardless of which keywords
it also contains. -/
theorem inverse_rule_exception_override
    (keywords keyword_exceptions : List (List Char)) (d : List Char)
    (hne : keyword_exceptions ≠ []) :
    (trxFilter keywords keyword_exceptions true d = true ↔
      (∀ kw ∈ keywords, ¬ SubstrOf kw (upperStr d)) ∨
        ∃ ex ∈ keyword_exceptions, SubstrOf ex (upperStr d)) ∧
    (∀ ex ∈ keyword_exceptions, SubstrOf ex (upperStr d) →
      trxFilter keywords keyword_exceptions true d = true) := by
  have hlen : ¬ keyword_exceptions.length = 0 := by
    simpa [List.length_eq_zero] using hne
  have hiff : trxFilter keywords keyword_exceptions true d = true ↔
      (∀ kw ∈ keywords, ¬ SubstrOf kw (upperStr d)) ∨
        ∃ ex ∈ keyword_exceptions, SubstrOf ex (upperStr d) := by
    simp [trxFilter, hlen, List.any_eq_true, List.all_eq_true, containsSub_iff,
      containsSub_false_iff]
  exact ⟨hiff, fun ex hex hsub => hiff.mpr (Or.inr ⟨ex, hex, hsub⟩)⟩

/-- Closed-instance witness for `inverse_rule_exception_override`: a
description containing the keyword "PAYMENT" is nevertheless admitted into the
inverse section because it also contains the exception "REFUND". -/
theorem inverse_rule_exception_override_witness :
    trxFilter [("PAYMENT".toList)] [("REFUND".toList)] true
      ("PAYMENT REFUND".toList) = true :=
  (inverse_rule_exception_override [("PAYMENT".toList)] [("REFUND".toList)]
      ("PAYMENT REFUND".toList) (by simp)).2
    ("REFUND".toList) (by simp) ⟨("PAYMENT ".toList), [], by decide⟩

/-- C9 counterexample: keyword matching is *not* case-insensitive in the
keyword.  The source only uppercases the description (`text.upper()`), never
the keyword, so lowering the case of a keyword changes section membership:
keyword "AMAZON" matches description "Amazon Marketplace" but keyword
"amazon" does not. -/
theorem keyword_case_change_cex :
    trxFilter [("AMAZON".toList)] [] false ("Amazon Marketplace".toList) = true ∧
    trxFilter [("amazon".toList)] [] false ("Amazon Marketplace".toList) = false := by
  exact ⟨by decide, by decide⟩

/-- C9 amended: membership is case-insensitive in the *description* only —
the filter reads the description solely through its uppercasing, so any two
descriptions with the same uppercasing (in particular, case variants of one
another) receive identical membership under every rule.  Case changes to
keywords or exception keywords can change membership (see the
counterexample). -/
theorem description_case_insensitive
    (keywords keyword_exceptions : List (List Char)) (is_inverse_section : Bool)
    (d d2 : List Char) (h : upperStr d = upperStr d2) :
    trxFilter keywords keyword_exceptions is_inverse_section d =
      trxFilter keywords keyword_exceptions is_inverse_section d2 := by
  simp only [trxFilter, h]

/-- Closed-instance witness for `description_case_insensitive`. -/
theorem description_case_insensitive_witness :
    trxFilter [("PAYROLL".toList)] [] false ("Payroll Deposit".toList) =
      trxFilter [("PAYROLL".toList)] [] false ("PAYROLL DEPOSIT".toList) :=
  description_case_insensitive [("PAYROLL".toList)] [] false
    ("Payroll Deposit".toList) ("PAYROLL DEPOSIT".toList) (by decide)

/-! ## Transaction classifier (`Transactions.__separate_income_from_expenses`) -/

/-- A raw checking-account row.  The CSV columns are `Details`, `Posting
Date`, `Description`, `Amount`, ... , so `columns[1:4]` — the projection the
source calls `column_selection` — is (posting date, description, amount). -/
structure CheckRow where
  details : List Char
  posting_date : Int
  description : List Char
  amount : Int
deriving DecidableEq

/-- A raw credit-card row after the DAO's rename of `Post Date` to `Posting
Date`; only the columns the classifier reads are modelled. -/
structure CCRow where
  type : List Char
  posting_date : Int
  description : List Char
  amount : Int
deriving DecidableEq

/-- A classified transaction record: (posting date, description, amount). -/
structure TxnRec where
  posting_date : Int
  description : List Char
  amount : Int
deriving DecidableEq

/-- Projection of a checking row to `column_selection = checking.columns[1:4]`. -/
def projChecking (r : CheckRow) : TxnRec :=
  ⟨r.posting_date, r.description, r.amount⟩

/-- Projection of a credit-card row to `['Posting Date', 'Description', 'Amount']`. -/
def projCC (r : CCRow) : TxnRec :=
  ⟨r.posting_date, r.description, r.amount⟩

/-- Embedding of `transactions.py` lines 109-116: checking rows flagged
`DEBIT`, projected, then filtered by `paying_off_cc_filter` (drop any row
whose uppercased description contains a configured credit-card keyword).
`ccKeywords` models `CREDIT_CARD_KEYWORDS`, which is external configuration. -/
def checkingExpenses (ccKeywords : List (List Char)) (checking : List CheckRow) :
    List TxnRec :=
  ((checking.filter (fun r => r.details == ("DEBIT".toList))).map projChecking).filter
    (fun trx => ccKeywords.all (fun kywd => !(containsSub kywd (upperStr trx.description))))

/-- Embedding of `transactions.py` line 118: credit-card rows flagged `Sale`,
projected to (posting date, description, amount). -/
def ccExpenses (cc : List CCRow) : List TxnRec :=
  (cc.filter (fun r => r.type == ("Sale".toList))).map projCC

/-- Embedding of the `pd.concat` argument of `transactions.py` line 119: the
expense records *before* the library's `sort_values` call. -/
def expensesPreSort (ccKeywords : List (List Char)) (checking : List CheckRow)
    (cc : List CCRow) : List TxnRec :=
  checkingExpenses ccKeywords checking ++ ccExpenses cc

/-- Embedding of `transactions.py` line 123: income = checking rows flagged
`CREDIT`, projected (the source applies no sort to income). -/
def incomeOf (checking : List CheckRow) : List TxnRec :=
  (checking.filter (fun r => r.details == ("CREDIT".toList))).map projChecking

/-- Embedding of `transactions.py` lines 126-128.  `checking.iloc[-1, ...]`
and `cc.iloc[-1, ...]` are both evaluated before the comparison; on an empty
frame `iloc[-1]` raises an uncaught `IndexError`, modelled as `none`. -/
def asOfDate (checking : List CheckRow) (cc : List CCRow) : Option Int :=
  match checking.getLast?, cc.getLast? with
  | some cl, some ccl =>
      some (if cl.posting_date > ccl.posting_date then cl.posting_date
            else ccl.posting_date)
  | _, _ => none

/-- The spec scenario's checking rows (posting dates chosen as 1, 2, 3). -/
def scenarioChecking : List CheckRow :=
  [ ⟨("DEBIT".toList), 1, ("AMAZON".toList), -20⟩,
    ⟨("DEBIT".toList), 2, ("PAYMENT THANK YOU".toList), -500⟩,
    ⟨("CREDIT".toList), 3, ("PAYROLL".toList), 2000⟩ ]

/-- C3: a DEBIT checking row survives into the (pre-sort) expense records iff
its description contains no configured credit-card-payment keyword; and in the
spec's scenario (credit-card keyword set {"PAYMENT"}, empty credit-card
source) the expense set is exactly [AMAZON -20] — for *any* permutation-
preserving sort, hence for the library's — and the income set is exactly
[PAYROLL 2000]. -/
theorem checking_expense_membership_and_scenario :
    (∀ (kws : List (List Char)) (rows : List CheckRow) (r : CheckRow),
      r ∈ rows → r.details = ("DEBIT".toList) →
      (projChecking r ∈ checkingExpenses kws rows ↔
        ∀ kw ∈ kws, ¬ SubstrOf kw (upperStr r.description))) ∧
    checkingExpenses [("PAYMENT".toList)] scenarioChecking =
      [⟨1, ("AMAZON".toList), -20⟩] ∧
    incomeOf scenarioChecking = [⟨3, ("PAYROLL".toList), 2000⟩] ∧
    (∀ g : List TxnRec → List TxnRec, (∀ l, (g l).Perm l) →
      g (expensesPreSort [("PAYMENT".toList)] scenarioChecking []) =
        [⟨1, ("AMAZON".toList), -20⟩]) := by
  refine ⟨?_, by decide, by decide, ?_⟩
  · intro kws rows r hr hdet
    simp only [checkingExpenses, List.mem_filter, List.mem_map, List.all_eq_true,
      Bool.not_eq_true', containsSub_false_iff]
    constructor
    · rintro ⟨-, hall⟩
      exact hall
    · intro hall
      refine ⟨⟨r, ⟨hr, ?_⟩, rfl⟩, hall⟩
      simp [hdet]
  · intro g hg
    have hpre : expensesPreSort [("PAYMENT".toList)] scenarioChecking [] =
        [⟨1, ("AMAZON".toList), -20⟩] := by decide
    have hperm := hg (expensesPreSort [("PAYMENT".toList)] scenarioChecking [])
    rw [hpre] at hperm
    rw [hpre]
    exact List.perm_singleton.mp hperm

/-- Closed-instance witness for `checking_expense_membership_and_scenario`:
the AMAZON debit survives the credit-card-payment filter. -/
theorem checking_expense_membership_witness :
    projChecking ⟨("DEBIT".toList), 1, ("AMAZON".toList), -20⟩ ∈
      checkingExpenses [("PAYMENT".toList)] scenarioChecking :=
  ((checking_expense_membership_and_scenario.1 [("PAYMENT".toList)]
      scenarioChecking ⟨("DEBIT".toList), 1, ("AMAZON".toList), -20⟩
      (by decide) rfl)).mpr
    (by
      intro kw hkw
      have hkw2 : kw = ("PAYMENT".toList) := by simpa using hkw
      subst hkw2
      exact (containsSub_false_iff _ _).mp (by decide))

/-- A concrete credit-card `Sale` row with posting date 5. -/
def ccSaleRow : CCRow := ⟨("Sale".toList), 5, ("COFFEE".toList), -4⟩

/-- C4 counterexample: with an empty checking source and a non-empty
credit-card source, the claim predicts as-of date 5 (the non-empty source's
latest posting date), but `checking.iloc[-1, ...]` raises an uncaught
`IndexError`, so the as-of computation produces no date at all. -/
theorem as_of_date_empty_source_cex :
    asOfDate [] [ccSaleRow] = none ∧ asOfDate [] [ccSaleRow] ≠ some 5 :=
  ⟨rfl, by decide⟩

/-- C4 amended: the as-of date is the later of the two sources' last rows'
posting dates when both sources are non-empty; if *either* source is empty
(not only when both are), the computation fails — `iloc[-1]` raises an
uncaught index error — so an empty source is never excluded from the
comparison. -/
theorem as_of_date_amended (checking : List CheckRow) (cc : List CCRow) :
    (∀ cl ccl, checking.getLast? = some cl → cc.getLast? = some ccl →
      asOfDate checking cc = some (max cl.posting_date ccl.posting_date)) ∧
    ((checking = [] ∨ cc = []) → asOfDate checking cc = none) := by
  constructor
  · intro cl ccl h1 h2
    simp only [asOfDate, h1, h2, Option.some.injEq]
    rcases le_or_lt cl.posting_date ccl.posting_date with h | h
    · rw [if_neg (not_lt.mpr h), max_eq_right h]
    · rw [if_pos h, max_eq_left h.le]
  · rintro (rfl | rfl)
    · rfl
    · cases h : checking.getLast? <;> simp [asOfDate, h]

/-- Closed-instance witness for `as_of_date_amended`. -/
theorem as_of_date_amended_witness :
    asOfDate scenarioChecking [ccSaleRow] = some (max 3 5) ∧
    asOfDate scenarioChecking [] = none :=
  ⟨(as_of_date_amended scenarioChecking [ccSaleRow]).1 _ _ rfl rfl,
   (as_of_date_amended scenarioChecking []).2 (Or.inr rfl)⟩

/-! ## TrackerSection and the worksheet model -/

/-- A value written to a worksheet cell: a posting date, a description, or an
amount. -/
inductive CellVal where
  | date (d : Int)
  | text (s : List Char)
  | num (a : Int)
deriving DecidableEq

/-- A worksheet: an optional value for each (row, column-number) cell. -/
def Workbook := Nat × Nat → Option CellVal

/-- The validated `trx_type` of a `TrackerSection`: `"expense"` or `"income"`. -/
inductive TrxType where
  | expense
  | income
deriving DecidableEq

/-- The configuration of a `TrackerSection` (worksheet handle omitted; the
worksheet is passed explicitly to the operations). -/
structure Sec where
  trx_type : TrxType
  keywords : List (List Char)
  min_row : Nat
  max_row : Nat
  min_col : Nat
  max_col : Nat
  keyword_exceptions : List (List Char)
  is_inverse_section : Bool

/-- `chr(64 + col)` from `write_data` lines 140-142. -/
def colChr (c : Nat) : Char := Char.ofNat (64 + c)

/-- Decode a single-character column reference the way the spreadsheet layer
reads it: openpyxl's coordinate regex accepts letters of either case and
`column_index_from_string` uppercases before indexing, so both A-Z (codes
65-90) and a-z (codes 97-122) are valid references, denoting columns 1-26;
every other character fails to parse. -/
def decodeCol (ch : Char) : Option Nat :=
  if 65 ≤ ch.toNat ∧ ch.toNat ≤ 90 then some (ch.toNat - 64)
  else if 97 ≤ ch.toNat ∧ ch.toNat ≤ 122 then some (ch.toNat - 96)
  else none

/-- One cell assignment `ws[f"{letter}{row}"] = value` as issued by
`write_data`. -/
structure CellWriteOp where
  col_letter : Char
  row : Nat
  value : CellVal
deriving DecidableEq

/-- `write_data` line 131: filter the records through `__trx_filter` on the
description column. -/
def sectionTrx (s : Sec) (transactions : List TxnRec) : List TxnRec :=
  transactions.filter
    (fun r => trxFilter s.keywords s.keyword_exceptions s.is_inverse_section r.description)

/-- `write_data` lines 139-147: the sequence of cell assignments performed for
the filtered records — date at column letter `chr(64+min_col)`, description at
`chr(64+min_col+1)`, amount at `chr(64+max_col)`, all on row `min_row + idx`
for the record at (reset) index `idx`. -/
def writeOps (s : Sec) (section_trx : List TxnRec) : List CellWriteOp :=
  section_trx.enum.flatMap (fun p =>
    [ ⟨colChr s.min_col, s.min_row + p.1, CellVal.date (p.2).posting_date⟩,
      ⟨colChr (s.min_col + 1), s.min_row + p.1, CellVal.text (p.2).description⟩,
      ⟨colChr s.max_col, s.min_row + p.1, CellVal.num (p.2).amount⟩ ])

theorem toNat_colChr (c : Nat) :
    (colChr c).toNat = if Nat.isValidChar (64 + c) then 64 + c else 0 := by
  by_cases hv : Nat.isValidChar (64 + c)
  · rw [if_pos hv]
    unfold colChr Char.ofNat
    rw [dif_pos hv]
    rfl
  · rw [if_neg hv]
    unfold colChr Char.ofNat
    rw [dif_neg hv]
    rfl

theorem decodeCol_colChr (c : Nat) (h1 : 1 ≤ c) (h2 : c ≤ 26) :
    decodeCol (colChr c) = some c := by
  interval_cases c <;> decide

theorem decodeCol_colChr_invalid (c : Nat) (h1 : 27 ≤ c) (h2 : c ≤ 32 ∨ 59 ≤ c) :
    decodeCol (colChr c) = none := by
  by_cases hv : Nat.isValidChar (64 + c)
  · simp only [decodeCol, toNat_colChr, if_pos hv]
    rw [if_neg (by omega), if_neg (by omega)]
  · simp only [decodeCol, toNat_colChr, if_neg hv]
    rw [if_neg (by omega), if_neg (by omega)]

theorem decodeCol_colChr_lowercase (c : Nat) (h1 : 33 ≤ c) (h2 : c ≤ 58) :
    decodeCol (colChr c) = some (c - 32) := by
  have hv : Nat.isValidChar (64 + c) := Or.inl (by omega)
  simp only [decodeCol, toNat_colChr, if_pos hv]
  rw [if_neg (by omega), if_pos (by omega)]
  simp only [Option.some.injEq]
  omega

/-- C10 (amended): `write_data` addresses cells through `chr(64 + column
index)`.  For a section with `1 ≤ min_col`, `min_col + 1 ≤ max_col` and
`max_col ≤ 26`, the emitted cell references decode to exactly columns
`min_col`, `min_col + 1` and `max_col` (all within the rectangle's column
span) of successive rows starting at `min_row`.  For `max_col > 26`,
`chr(64 + max_col)` never references column `max_col`, so writes do not
target the documented rectangle columns — but not always by failing: for
`27 ≤ max_col ≤ 32` and `59 ≤ max_col` the character is not a valid column
reference, while for `33 ≤ max_col ≤ 58` it is the lowercase letter that the
spreadsheet layer uppercases, silently writing to column `max_col - 32`
instead. -/
theorem write_data_column_addressing :
    (∀ (s : Sec) (st : List TxnRec),
      1 ≤ s.min_col → s.min_col + 1 ≤ s.max_col → s.max_col ≤ 26 →
      ((writeOps s st).map (fun w => (decodeCol w.col_letter, w.row, w.value)) =
        st.enum.flatMap (fun p =>
          [ (some s.min_col, s.min_row + p.1, CellVal.date (p.2).posting_date),
            (some (s.min_col + 1), s.min_row + p.1, CellVal.text (p.2).description),
            (some s.max_col, s.min_row + p.1, CellVal.num (p.2).amount) ]) ∧
       ∀ w ∈ writeOps s st, ∃ c, decodeCol w.col_letter = some c ∧
         s.min_col ≤ c ∧ c ≤ s.max_col)) ∧
    (∀ mc : Nat, 27 ≤ mc →
      decodeCol (colChr mc) ≠ some mc ∧
      ((mc ≤ 32 ∨ 59 ≤ mc) → decodeCol (colChr mc) = none) ∧
      (33 ≤ mc → mc ≤ 58 → decodeCol (colChr mc) = some (mc - 32))) := by
  constructor
  · intro s st h1 h2 h3
    have d1 : decodeCol (colChr s.min_col) = some s.min_col :=
      decodeCol_colChr _ h1 (by omega)
    have d2 : decodeCol (colChr (s.min_col + 1)) = some (s.min_col + 1) :=
      decodeCol_colChr _ (by omega) (by omega)
    have d3 : decodeCol (colChr s.max_col) = some s.max_col :=
      decodeCol_colChr _ (by omega) h3
    constructor
    · simp only [writeOps, List.map_flatMap]
      refine congrArg (List.flatMap st.enum) (funext fun p => ?_)
      simp only [List.map_cons, List.map_nil, d1, d2, d3]
    · intro w hw
      simp only [writeOps, List.mem_flatMap, List.mem_cons,
        List.not_mem_nil, or_false] at hw
      obtain ⟨p, -, hw⟩ := hw
      rcases hw with rfl | rfl | rfl
      · exact ⟨s.min_col, d1, le_refl _, by omega⟩
      · exact ⟨s.min_col + 1, d2, by omega, by omega⟩
      · exact ⟨s.max_col, d3, by omega, le_refl _⟩
  · intro mc h
    refine ⟨?_, fun h2 => decodeCol_colChr_invalid mc h h2,
      fun h3 h4 => decodeCol_colChr_lowercase mc h3 h4⟩
    by_cases hlow : 33 ≤ mc ∧ mc ≤ 58
    · rw [decodeCol_colChr_lowercase mc hlow.1 hlow.2]
      simp only [ne_eq, Option.some.injEq]
      omega
    · rw [decodeCol_colChr_invalid mc h (by omega)]
      simp

/-- C10 counterexample: for a section with `max_col = 33` the computed
reference `chr(64 + 33)` is the lowercase letter a, which *is* a valid
single-letter column reference — the spreadsheet layer accepts lowercase and
uppercases it, so the write succeeds and lands in column 1, not column 33 —
refuting the claim that for `max_col > 26` the computed reference is not a
valid column letter. -/
theorem column_letter_lowercase_cex :
    colChr 33 = 'a' ∧
    decodeCol (colChr 33) = some 1 ∧
    ¬ decodeCol (colChr 33) = none := by
  refine ⟨by decide, by decide, by decide⟩

/-- A section spanning columns 2-8 (like those registered in `main.py`). -/
def c10sec : Sec :=
  ⟨TrxType.expense, [("A".toList)], 7, 8, 2, 8, [], false⟩

/-- Closed-instance witness for `write_data_column_addressing`. -/
theorem write_data_column_addressing_witness :
    ((writeOps c10sec [⟨1, ("A".toList), -1⟩]).map
        (fun w => (decodeCol w.col_letter, w.row, w.value)) =
      [ (some 2, 7, CellVal.date 1),
        (some 3, 7, CellVal.text ("A".toList)),
        (some 8, 7, CellVal.num (-1)) ]) ∧
    decodeCol (colChr 27) = none ∧
    decodeCol (colChr 33) = some 1 ∧
    decodeCol (colChr 59) = none :=
  ⟨(((write_data_column_addressing.1 c10sec [⟨1, ("A".toList), -1⟩])
      (by decide) (by decide) (by decide)).1).trans (by decide),
   (write_data_column_addressing.2 27 (by decide)).2.1 (Or.inl (by decide)),
   (write_data_column_addressing.2 33 (by decide)).2.2 (by decide) (by decide),
   (write_data_column_addressing.2 59 (by decide)).2.1 (Or.inr (by decide))⟩

/-! ## Stateful section write and the tracker refresh cycle

A raised Python exception is modelled as an `Except.error` paired with the
worksheet state at the moment of the raise (mutations made before the raise
are retained, as in the source). -/

/-- The tracker exceptions that can abort a refresh after construction. -/
inductive TrackerErr where
  | emptyTrackerError
  | insufficientTrackerSectionSize
  | invalidCellReference
deriving DecidableEq

/-- Point update of one worksheet cell. -/
def setCell (wb : Workbook) (cell : Nat × Nat) (v : Option CellVal) : Workbook :=
  fun c => if c = cell then v else wb c

/-- `TrackerSection.clear_contents` (lines 108-114): every cell of the
bounding rectangle is set to `None`; cells outside are untouched. -/
def clear_contents (s : Sec) (wb : Workbook) : Workbook :=
  fun c =>
    if s.min_row ≤ c.1 ∧ c.1 ≤ s.max_row ∧ s.min_col ≤ c.2 ∧ c.2 ≤ s.max_col
    then none else wb c

/-- Apply the cell assignments of `write_data`'s loop one at a time.  An
assignment whose column letter is not a valid reference raises in the
spreadsheet layer: earlier assignments stay applied, later ones never run. -/
def applyWriteOps : List CellWriteOp → Workbook → Except TrackerErr Unit × Workbook
  | [], wb => (Except.ok (), wb)
  | w :: ws, wb =>
    match decodeCol w.col_letter with
    | none => (Except.error TrackerErr.invalidCellReference, wb)
    | some c => applyWriteOps ws (setCell wb (w.row, c) (some w.value))

/-- Embedding of `TrackerSection.write_data` (lines 116-147): filter the
records, raise `InsufficientTrackerSectionSize` if the survivors exceed the
row capacity `max_row - min_row + 1` (before any cell is written), otherwise
perform the cell assignments. -/
def write_data (s : Sec) (transactions : List TxnRec) (wb : Workbook) :
    Except TrackerErr Unit × Workbook :=
  let section_trx := sectionTrx s transactions
  if (section_trx.length : Int) > (s.max_row : Int) - (s.min_row : Int) + 1 then
    (Except.error TrackerErr.insufficientTrackerSectionSize, wb)
  else
    applyWriteOps (writeOps s section_trx) wb

/-- C5: if the number of records surviving the section's keyword filter
exceeds the section's row capacity, `write_data` fails with the
insufficient-size error and the worksheet is returned exactly as it was — the
capacity check precedes every cell assignment, so no cell (in particular none
of the section's rectangle) is modified. -/
theorem write_data_capacity_overflow (s : Sec) (transactions : List TxnRec)
    (wb : Workbook)
    (h : ((sectionTrx s transactions).length : Int) >
      (s.max_row : Int) - (s.min_row : Int) + 1) :
    write_data s transactions wb =
      (Except.error TrackerErr.insufficientTrackerSectionSize, wb) := by
  simp only [write_data]
  rw [if_pos h]

/-- A section holding a single row (capacity 1) whose keyword "A" matches
more than one record. -/
def tinySec : Sec :=
  ⟨TrxType.expense, [("A".toList)], 5, 5, 2, 8, [], false⟩

/-- The worksheet with every cell empty. -/
def emptyWb : Workbook := fun _ => none

/-- Closed-instance witness for `write_data_capacity_overflow`: two matching
records against capacity 1. -/
theorem write_data_capacity_overflow_witness :
    write_data tinySec [⟨1, ("A".toList), -1⟩, ⟨2, ("AB".toList), -2⟩] emptyWb =
      (Except.error TrackerErr.insufficientTrackerSectionSize, emptyWb) :=
  write_data_capacity_overflow tinySec
    [⟨1, ("A".toList), -1⟩, ⟨2, ("AB".toList), -2⟩] emptyWb (by decide)

/-- The marker cell `AS_OF_DATE_CELL = "T1"`: row 1, column T = 20. -/
def markerCell : Nat × Nat := (1, 20)

/-- `IncomeExpenseTracker.__clear_tracker_contents` (lines 388-392): blank the
as-of marker cell, then clear every registered section. -/
def clear_tracker_contents (sections : List Sec) (wb : Workbook) : Workbook :=
  sections.foldl (fun w s => clear_contents s w) (setCell wb markerCell none)

/-- The record set a section draws from, by its polarity
(`__write_transaction_data_to_tracker` lines 406-410). -/
def sectionRecords (s : Sec) (income expenses : List TxnRec) : List TxnRec :=
  match s.trx_type with
  | TrxType.expense => expenses
  | TrxType.income => income

/-- The per-section write loop of `__write_transaction_data_to_tracker`
(lines 405-411): write each section in turn, stopping at the first failure
with the worksheet as mutated so far. -/
def write_sections : List Sec → List TxnRec → List TxnRec → Workbook →
    Except TrackerErr Unit × Workbook
  | [], _, _, wb => (Except.ok (), wb)
  | s :: rest, income, expenses, wb =>
    match write_data s (sectionRecords s income expenses) wb with
    | (Except.ok _, wb2) => write_sections rest income expenses wb2
    | (Except.error e, wb2) => (Except.error e, wb2)

/-- The tracker as seen across a refresh: the in-memory workbook and the
last-saved on-disk workbook. -/
structure TrackerState where
  memory : Workbook
  disk : Workbook

/-- Embedding of `IncomeExpenseTracker.update_tracker` (lines 366-385) with
the classified period data passed in: fail on an empty section registry;
clear the marker and every section; write the as-of date to the marker; write
every section; only if all of that succeeded, save (copy memory to disk).  An
error propagates before the save statement is reached. -/
def update_tracker (sections : List Sec) (income expenses : List TxnRec)
    (asOf : CellVal) (st : TrackerState) : Except TrackerErr Unit × TrackerState :=
  if sections.length = 0 then (Except.error TrackerErr.emptyTrackerError, st)
  else
    let m2 := setCell (clear_tracker_contents sections st.memory) markerCell (some asOf)
    match write_sections sections income expenses m2 with
    | (Except.ok _, m3) => (Except.ok (), ⟨m3, m3⟩)
    | (Except.error e, m3) => (Except.error e, ⟨m3, st.disk⟩)

/-- C6: if a refresh fails at any step (for example a section write
overflowing its capacity), the save step is never executed, so the on-disk
workbook is exactly the pre-refresh one; the disk is overwritten (with the
fully rewritten in-memory workbook) only when every section write succeeded. -/
theorem refresh_never_partially_saves (sections : List Sec)
    (income expenses : List TxnRec) (asOf : CellVal) (st : TrackerState) :
    (∀ e, (update_tracker sections income expenses asOf st).1 = Except.error e →
      ((update_tracker sections income expenses asOf st).2).disk = st.disk) ∧
    ((update_tracker sections income expenses asOf st).1 = Except.ok () →
      ((update_tracker sections income expenses asOf st).2).disk =
        ((update_tracker sections income expenses asOf st).2).memory) := by
  by_cases hlen : sections.length = 0
  · constructor
    · intro e _
      simp [update_tracker, hlen]
    · intro hok
      simp [update_tracker, hlen] at hok
  · rcases hws : write_sections sections income expenses
        (setCell (clear_tracker_contents sections st.memory) markerCell
          (some asOf)) with ⟨tag, m3⟩
    cases tag with
    | ok u =>
      constructor
      · intro e he
        simp [update_tracker, hlen, hws] at he
      · intro _
        simp [update_tracker, hlen, hws]
    | error e2 =>
      constructor
      · intro e _
        simp [update_tracker, hlen, hws]
      · intro hok
        simp [update_tracker, hlen, hws] at hok

/-- Closed-instance witness for `refresh_never_partially_saves`: the
single-row section overflows, the refresh errors, and the on-disk workbook is
untouched. -/
theorem refresh_never_partially_saves_witness :
    ((update_tracker [tinySec] [] [⟨1, ("A".toList), -1⟩, ⟨2, ("AB".toList), -2⟩]
        (CellVal.date 2) ⟨emptyWb, emptyWb⟩).2).disk = emptyWb :=
  (refresh_never_partially_saves [tinySec] []
      [⟨1, ("A".toList), -1⟩, ⟨2, ("AB".toList), -2⟩]
      (CellVal.date 2) ⟨emptyWb, emptyWb⟩).1
    TrackerErr.insufficientTrackerSectionSize rfl

/-! ## Idempotence of the refresh cycle

Every mutation a refresh performs sets a cell to a value that does not depend
on the worksheet's prior contents.  We capture this as *obliviousness*: at
each cell, a worksheet transformation either determines the result outright
or passes the input through.  Oblivious transformations compose and are
idempotent, which yields C7. -/

/-- At every cell, `g` either determines the value (independently of the
input worksheet) or leaves the input's value unchanged. -/
def Oblivious (g : Workbook → Workbook) : Prop :=
  ∀ c, (∀ w w2, g w c = g w2 c) ∨ (∀ w, g w c = w c)

theorem oblivious_id : Oblivious (fun w => w) :=
  fun _ => Or.inr (fun _ => rfl)

theorem oblivious_comp {g h : Workbook → Workbook} (hg : Oblivious g)
    (hh : Oblivious h) : Oblivious (fun w => h (g w)) := by
  intro c
  rcases hh c with hd | hp
  · exact Or.inl (fun w w2 => hd (g w) (g w2))
  · rcases hg c with gd | gp
    · refine Or.inl (fun w w2 => ?_)
      show h (g w) c = h (g w2) c
      rw [hp (g w), hp (g w2)]
      exact gd w w2
    · refine Or.inr (fun w => ?_)
      show h (g w) c = w c
      rw [hp (g w), gp w]

theorem oblivious_fixpoint {g : Workbook → Workbook} (hg : Oblivious g)
    (w : Workbook) : g (g w) = g w := by
  funext c
  rcases hg c with hd | hp
  · exact hd (g w) w
  · exact hp (g w)

theorem oblivious_setCell (cell : Nat × Nat) (v : Option CellVal) :
    Oblivious (fun w => setCell w cell v) := by
  intro c
  by_cases hc : c = cell
  · exact Or.inl (fun w w2 => by simp [setCell, hc])
  · exact Or.inr (fun w => by simp [setCell, hc])

theorem oblivious_clear_contents (s : Sec) : Oblivious (clear_contents s) := by
  intro c
  by_cases hc : s.min_row ≤ c.1 ∧ c.1 ≤ s.max_row ∧
      s.min_col ≤ c.2 ∧ c.2 ≤ s.max_col
  · exact Or.inl (fun w w2 => by simp [clear_contents, hc])
  · exact Or.inr (fun w => by simp [clear_contents, hc])

theorem oblivious_foldl {α : Type} (f : Workbook → α → Workbook)
    (hf : ∀ a, Oblivious (fun w => f w a)) :
    ∀ l : List α, Oblivious (fun w => l.foldl f w)
  | [] => oblivious_id
  | a :: t =>
    @oblivious_comp (fun w => f w a) (fun w => t.foldl f w)
      (hf a) (oblivious_foldl f hf t)

/-- The worksheet transformation performed by a successful `applyWriteOps`
run (on success no op has an invalid reference, so the skip branch is never
the one taken). -/
def foldSetOps : List CellWriteOp → Workbook → Workbook
  | [], wb => wb
  | w :: ws, wb =>
    match decodeCol w.col_letter with
    | some c => foldSetOps ws (setCell wb (w.row, c) (some w.value))
    | none => wb

theorem oblivious_foldSetOps : ∀ ops : List CellWriteOp, Oblivious (foldSetOps ops)
  | [] => oblivious_id
  | w :: ws => by
    rcases hd : decodeCol w.col_letter with - | c
    · have he : foldSetOps (w :: ws) = fun wb => wb :=
        funext fun wb => by simp [foldSetOps, hd]
      rw [he]
      exact oblivious_id
    · have he : foldSetOps (w :: ws) =
          fun wb => foldSetOps ws (setCell wb (w.row, c) (some w.value)) :=
        funext fun wb => by simp [foldSetOps, hd]
      rw [he]
      exact @oblivious_comp (fun wb => setCell wb (w.row, c) (some w.value))
        (foldSetOps ws) (oblivious_setCell _ _) (oblivious_foldSetOps ws)

theorem applyWriteOps_fst (ops : List CellWriteOp) :
    ∀ wb wb2 : Workbook, (applyWriteOps ops wb).1 = (applyWriteOps ops wb2).1 := by
  induction ops with
  | nil => intro wb wb2; rfl
  | cons w ws ih =>
    intro wb wb2
    rcases hd : decodeCol w.col_letter with - | c
    · simp [applyWriteOps, hd]
    · simp only [applyWriteOps, hd]
      exact ih _ _

theorem applyWriteOps_ok (ops : List CellWriteOp) :
    ∀ wb : Workbook, (applyWriteOps ops wb).1 = Except.ok () →
      applyWriteOps ops wb = (Except.ok (), foldSetOps ops wb) := by
  induction ops with
  | nil => intro wb _; rfl
  | cons w ws ih =>
    intro wb h
    rcases hd : decodeCol w.col_letter with - | c
    · simp [applyWriteOps, hd] at h
    · simp only [applyWriteOps, hd] at h ⊢
      simp only [foldSetOps, hd]
      exact ih _ h

theorem write_data_fst (s : Sec) (trx : List TxnRec) (wb wb2 : Workbook) :
    (write_data s trx wb).1 = (write_data s trx wb2).1 := by
  by_cases h : ((sectionTrx s trx).length : Int) >
      (s.max_row : Int) - (s.min_row : Int) + 1
  · simp [write_data, h]
  · simp only [write_data, if_neg h]
    exact applyWriteOps_fst _ wb wb2

theorem write_data_ok (s : Sec) (trx : List TxnRec) (wb : Workbook)
    (h : (write_data s trx wb).1 = Except.ok ()) :
    write_data s trx wb =
      (Except.ok (), foldSetOps (writeOps s (sectionTrx s trx)) wb) := by
  by_cases hcap : ((sectionTrx s trx).length : Int) >
      (s.max_row : Int) - (s.min_row : Int) + 1
  · simp [write_data, hcap] at h
  · simp only [write_data, if_neg hcap] at h ⊢
    exact applyWriteOps_ok _ wb h

/-- The worksheet transformation performed by a fully successful
`write_sections` run. -/
def foldSections : List Sec → List TxnRec → List TxnRec → Workbook → Workbook
  | [], _, _, wb => wb
  | s :: rest, income, expenses, wb =>
    foldSections rest income expenses
      (foldSetOps (writeOps s (sectionTrx s (sectionRecords s income expenses))) wb)

theorem oblivious_foldSections :
    ∀ (sections : List Sec) (income expenses : List TxnRec),
      Oblivious (foldSections sections income expenses)
  | [], _, _ => oblivious_id
  | s :: rest, income, expenses =>
    @oblivious_comp
      (fun wb =>
        foldSetOps (writeOps s (sectionTrx s (sectionRecords s income expenses))) wb)
      (foldSections rest income expenses)
      (oblivious_foldSetOps _)
      (oblivious_foldSections rest income expenses)

theorem write_sections_fst :
    ∀ (sections : List Sec) (income expenses : List TxnRec) (wb wb2 : Workbook),
      (write_sections sections income expenses wb).1 =
        (write_sections sections income expenses wb2).1 := by
  intro sections
  induction sections with
  | nil => intro income expenses wb wb2; rfl
  | cons s rest ih =>
    intro income expenses wb wb2
    rcases h1 : write_data s (sectionRecords s income expenses) wb with ⟨t1, m1⟩
    rcases h2 : write_data s (sectionRecords s income expenses) wb2 with ⟨t2, m2⟩
    have ht : t1 = t2 := by
      have := write_data_fst s (sectionRecords s income expenses) wb wb2
      rw [h1, h2] at this
      exact this
    subst ht
    cases t1 with
    | ok u => simp only [write_sections, h1, h2]; exact ih income expenses m1 m2
    | error e => simp [write_sections, h1, h2]

theorem write_sections_ok :
    ∀ (sections : List Sec) (income expenses : List TxnRec) (wb : Workbook),
      (write_sections sections income expenses wb).1 = Except.ok () →
      write_sections sections income expenses wb =
        (Except.ok (), foldSections sections income expenses wb) := by
  intro sections
  induction sections with
  | nil => intro income expenses wb _; rfl
  | cons s rest ih =>
    intro income expenses wb h
    rcases h1 : write_data s (sectionRecords s income expenses) wb with ⟨t1, m1⟩
    cases t1 with
    | error e =>
      rw [show write_sections (s :: rest) income expenses wb =
        (Except.error e, m1) by simp [write_sections, h1]] at h
      exact absurd h (by simp)
    | ok u =>
      cases u
      have hmem : m1 =
          foldSetOps (writeOps s (sectionTrx s (sectionRecords s income expenses))) wb := by
        have hok := write_data_ok s (sectionRecords s income expenses) wb
          (by rw [h1])
        rw [h1] at hok
        exact (Prod.mk.injEq _ _ _ _).mp hok |>.2
      rw [show write_sections (s :: rest) income expenses wb =
        write_sections rest income expenses m1 by simp [write_sections, h1]] at h ⊢
      rw [ih income expenses m1 h, hmem]
      rfl

/-- The full in-memory effect of one successful refresh: blank the marker and
the sections, write the as-of date, then write every section. -/
def refreshFun (sections : List Sec) (income expenses : List TxnRec)
    (asOf : CellVal) : Workbook → Workbook :=
  fun wb => foldSections sections income expenses
    (setCell (clear_tracker_contents sections wb) markerCell (some asOf))

theorem oblivious_refreshFun (sections : List Sec) (income expenses : List TxnRec)
    (asOf : CellVal) : Oblivious (refreshFun sections income expenses asOf) := by
  have hclear : Oblivious (clear_tracker_contents sections) :=
    @oblivious_comp (fun wb => setCell wb markerCell none)
      (fun x => sections.foldl (fun w s => clear_contents s w) x)
      (oblivious_setCell markerCell none)
      (oblivious_foldl (fun w s => clear_contents s w)
        (fun s => oblivious_clear_contents s) sections)
  exact @oblivious_comp
    (fun wb => setCell (clear_tracker_contents sections wb) markerCell (some asOf))
    (foldSections sections income expenses)
    (@oblivious_comp (clear_tracker_contents sections)
      (fun x => setCell x markerCell (some asOf))
      hclear (oblivious_setCell markerCell (some asOf)))
    (oblivious_foldSections sections income expenses)

theorem update_tracker_ok (sections : List Sec) (income expenses : List TxnRec)
    (asOf : CellVal) (st st2 : TrackerState)
    (h : update_tracker sections income expenses asOf st = (Except.ok (), st2)) :
    ¬ sections.length = 0 ∧
    (write_sections sections income expenses
      (setCell (clear_tracker_contents sections st.memory) markerCell
        (some asOf))).1 = Except.ok () ∧
    st2 = ⟨refreshFun sections income expenses asOf st.memory,
           refreshFun sections income expenses asOf st.memory⟩ := by
  by_cases hlen : sections.length = 0
  · simp [update_tracker, hlen] at h
  · rcases hws : write_sections sections income expenses
        (setCell (clear_tracker_contents sections st.memory) markerCell
          (some asOf)) with ⟨tag, m3⟩
    cases tag with
    | error e => simp [update_tracker, hlen, hws] at h
    | ok u =>
      cases u
      refine ⟨hlen, ?_, ?_⟩
      · rfl
      have hshape := write_sections_ok sections income expenses _ (by rw [hws])
      rw [hws] at hshape
      have hm3 : m3 = refreshFun sections income expenses asOf st.memory :=
        (Prod.mk.injEq _ _ _ _).mp hshape |>.2
      have hst2 : st2 = ⟨m3, m3⟩ := by
        have := h.symm
        rw [show update_tracker sections income expenses asOf st =
          (Except.ok (), (⟨m3, m3⟩ : TrackerState)) by
            simp [update_tracker, hlen, hws]] at h
        exact ((Prod.mk.injEq _ _ _ _).mp h |>.2).symm
      rw [hst2, hm3]

/-- C7: with a fixed registry of sections and unchanged classified data, a
second refresh immediately after a successful one succeeds again and leaves
the tracker state — every written cell, the whole in-memory worksheet, and
the saved on-disk worksheet — exactly as the first refresh left it. -/
theorem refresh_idempotent (sections : List Sec) (income expenses : List TxnRec)
    (asOf : CellVal) (st st2 : TrackerState)
    (h : update_tracker sections income expenses asOf st = (Except.ok (), st2)) :
    update_tracker sections income expenses asOf st2 = (Except.ok (), st2) := by
  obtain ⟨hlen, htag1, hst2⟩ := update_tracker_ok sections income expenses asOf st st2 h
  subst hst2
  have hfix : refreshFun sections income expenses asOf
      (refreshFun sections income expenses asOf st.memory) =
      refreshFun sections income expenses asOf st.memory :=
    oblivious_fixpoint (oblivious_refreshFun sections income expenses asOf) st.memory
  have htag2 : (write_sections sections income expenses
      (setCell (clear_tracker_contents sections
        (refreshFun sections income expenses asOf st.memory)) markerCell
        (some asOf))).1 = Except.ok () := by
    rw [write_sections_fst sections income expenses _
      (setCell (clear_tracker_contents sections st.memory) markerCell (some asOf))]
    exact htag1
  have hws2 := write_sections_ok sections income expenses
    (setCell (clear_tracker_contents sections
      (refreshFun sections income expenses asOf st.memory)) markerCell
      (some asOf)) htag2
  have hm4 : foldSections sections income expenses
      (setCell (clear_tracker_contents sections
        (refreshFun sections income expenses asOf st.memory)) markerCell
        (some asOf)) =
      refreshFun sections income expenses asOf st.memory := hfix
  simp [update_tracker, hlen, hws2, hm4]

/-- A two-row expense section matched by one record: its refresh succeeds. -/
def okSec : Sec :=
  ⟨TrxType.expense, [("A".toList)], 5, 6, 2, 8, [], false⟩

/-- The state after one successful refresh of `okSec` from the empty
workbook. -/
def okState : TrackerState :=
  (update_tracker [okSec] [] [⟨1, ("A".toList), -1⟩] (CellVal.date 1)
    ⟨emptyWb, emptyWb⟩).2

/-- Closed-instance witness for `refresh_idempotent`. -/
theorem refresh_idempotent_witness :
    update_tracker [okSec] [] [⟨1, ("A".toList), -1⟩] (CellVal.date 1) okState =
      (Except.ok (), okState) :=
  refresh_idempotent [okSec] [] [⟨1, ("A".toList), -1⟩] (CellVal.date 1)
    ⟨emptyWb, emptyWb⟩ okState rfl

end ExpenseTracker
